import Mathlib

/-!
Shallow embedding of the upmon property-monitoring pipeline
(src/upower.rs, src/output.rs) together with proofs about its
specification. Machine integers are modelled as Nat / Int with explicit
range reasoning where it matters; fallible operations return Except or
Option, where the error case models a fatal (process-aborting) failure.
Definitions come first, followed by helper lemmas and the theorems about
the individual specification claims.
-/

namespace Upmon

/-- Zero-pad an integer to at least two digits, as the Rust format
specifier 02 does for the values that reach it (negative values keep
their sign and are not padded below their natural width). -/
def pad2 (n : Int) : String :=
  if 0 ≤ n ∧ n < 10 then "0" ++ toString n else toString n

/-- Model of secs_to_hhmmss from src/upower.rs: convert seconds to a
string in the format HH:MM:SS. Rust division and remainder on i64
truncate toward zero, so they are modelled by Int.tdiv and Int.tmod.
The two conditional remainder updates mirror the source lines
s %= h * 3600 and s %= m * 60 exactly. -/
def secs_to_hhmmss (s : Int) : String :=
  if s ≤ 0 then "00:00:00"
  else
    let h := s.tdiv 3600
    let s1 := if 0 < h then s.tmod (h * 3600) else s
    let m := s1.tdiv 60
    let s2 := if 0 < m then s1.tmod (m * 60) else s1
    pad2 h ++ ":" ++ pad2 m ++ ":" ++ pad2 s2

/-- Rendering rule for time distances exactly as the specification words
it: hours are t / 3600, minutes are (t mod 3600) / 60, seconds are
t mod 60, each zero-padded to two digits and joined by colons, with
every non-positive input rendered as 00:00:00. -/
def hhmmssSpec (t : Int) : String :=
  if t ≤ 0 then "00:00:00"
  else pad2 (t / 3600) ++ ":" ++ pad2 ((t % 3600) / 60) ++ ":" ++ pad2 (t % 60)

/-- Dynamically typed DBus value, modelling the zbus zvariant Value
constructors that src/upower.rs matches on. The Str constructor stands
for the remaining value kinds, none of which from_key_value accepts.
A u64 payload is a Nat below 2 ^ 64, an i64 payload is an Int in the
signed 64-bit range, a u32 payload is a Nat below 2 ^ 32. -/
inductive Value
  | U64 (t : Nat)
  | I64 (t : Int)
  | F64 (p : Float)
  | Bool (b : Bool)
  | U32 (n : Nat)
  | Str (s : String)

/-- Model of the Property enum from src/upower.rs: properties of the
UPower device interface which can be monitored, with their typed
payloads. -/
inductive Property
  | UpdateTime (t : Nat)
  | Online (b : Bool)
  | TimeToEmpty (t : Int)
  | TimeToFull (t : Int)
  | Percentage (p : Float)
  | IsPresent (b : Bool)
  | State (n : Nat)

/-- Name of the variant of a Property value, as the strum-derived
VariantNames machinery exposes it. -/
def variantName : Property → String
  | .UpdateTime _ => "UpdateTime"
  | .Online _ => "Online"
  | .TimeToEmpty _ => "TimeToEmpty"
  | .TimeToFull _ => "TimeToFull"
  | .Percentage _ => "Percentage"
  | .IsPresent _ => "IsPresent"
  | .State _ => "State"

/-- Model of Property::VARIANTS (derived by strum in declaration
order). -/
def VARIANTS : List String :=
  ["UpdateTime", "Online", "TimeToEmpty", "TimeToFull", "Percentage", "IsPresent", "State"]

/-- Model of Property::from_key_value from src/upower.rs: create a
Property from a key and a dynamically typed value. Every non-matching
pair falls through to the single unit error, as in the source. -/
def Property.from_key_value (k : String) (v : Value) : Except Unit Property :=
  match k, v with
  | "UpdateTime", .U64 t => .ok (.UpdateTime t)
  | "Online", .Bool b => .ok (.Online b)
  | "TimeToEmpty", .I64 t => .ok (.TimeToEmpty t)
  | "TimeToFull", .I64 t => .ok (.TimeToFull t)
  | "Percentage", .F64 p => .ok (.Percentage p)
  | "IsPresent", .Bool b => .ok (.IsPresent b)
  | "State", .U32 s => .ok (.State s)
  | _, _ => .error ()

/-- Check whether a recognized property name is paired with a value of
the payload type its variant expects, following the variant table. Used
to state claims that distinguish a wrong-typed value from an unknown
name. -/
def typeMatches : String → Value → Bool
  | "UpdateTime", .U64 _ => true
  | "Online", .Bool _ => true
  | "TimeToEmpty", .I64 _ => true
  | "TimeToFull", .I64 _ => true
  | "Percentage", .F64 _ => true
  | "IsPresent", .Bool _ => true
  | "State", .U32 _ => true
  | _, _ => false

/-- Reinterpret a u64 value (a Nat below 2 ^ 64) as the Rust cast
expression t as i64 does: two-complement reinterpretation. -/
def u64AsI64 (t : Nat) : Int :=
  if t < 2 ^ 63 then (t : Int) else (t : Int) - 2 ^ 64

/-- Number of days from 0001-01-01 (proleptic Gregorian) to 1970-01-01,
the constant chrono adds when turning a Unix timestamp into a day
number counted from the common era. -/
def epochDaysFromCE : Int := 719163

/-- Day number from the common era of the minimum date chrono can
represent, -262144-01-01 (the year bound is the i32 minimum shifted
right by 13). -/
def minDaysFromCE : Int := -95746495

/-- Day number from the common era of the maximum date chrono can
represent, 262143-12-31 (the year bound is the i32 maximum shifted
right by 13). -/
def maxDaysFromCE : Int := 95745764

/-- Model of the success condition of the chrono function
NaiveDateTime::from_timestamp_opt(secs, 0), which src/upower.rs relies
on when rendering UpdateTime: flooring division by 86400 (div_euclid)
must yield a day number that lands on a representable date. -/
def timestampValid (secs : Int) : Bool :=
  decide (minDaysFromCE ≤ Int.ediv secs 86400 + epochDaysFromCE ∧
    Int.ediv secs 86400 + epochDaysFromCE ≤ maxDaysFromCE)

/-- Pad a natural number with leading zeros to the given width. -/
def padNat (w : Nat) (n : Nat) : String :=
  let s := toString n
  if s.length < w then String.mk (List.replicate (w - s.length) '0') ++ s else s

/-- Civil-from-days conversion on the proleptic Gregorian calendar:
given a day count since 1970-01-01, return year, month and day. This
models the date arithmetic chrono performs when materialising a date
from a day number. -/
def civilFromDays (z0 : Int) : Int × Nat × Nat :=
  let z := z0 + 719468
  let era := Int.ediv z 146097
  let doe := (z - era * 146097).toNat
  let yoe := (doe - doe / 1460 + doe / 36524 - doe / 146096) / 365
  let y := (yoe : Int) + era * 400
  let doy := doe - (365 * yoe + yoe / 4 - yoe / 100)
  let mp := (5 * doy + 2) / 153
  let d := doy - (153 * mp + 2) / 5 + 1
  let m := if mp < 10 then mp + 3 else mp - 9
  (if m ≤ 2 then y + 1 else y, m, d)

/-- Format a year the way the chrono RFC 3339 writer does: zero-padded
to four digits, with an explicit sign for years outside 0..=9999. -/
def yearString (y : Int) : String :=
  if y < 0 then "-" ++ padNat 4 (-y).toNat
  else if 9999 < y then "+" ++ toString y.toNat
  else padNat 4 y.toNat

/-- Model of rendering an in-range Unix timestamp the way the source
renders UpdateTime: UTC, RFC 3339, second precision, Z suffix. -/
def rfc3339Utc (secs : Int) : String :=
  let days := Int.ediv secs 86400
  let tod := (Int.emod secs 86400).toNat
  let ymd := civilFromDays days
  yearString ymd.1 ++ "-" ++ padNat 2 ymd.2.1 ++ "-" ++ padNat 2 ymd.2.2 ++ "T" ++
    padNat 2 (tod / 3600) ++ ":" ++ padNat 2 (tod % 3600 / 60) ++ ":" ++ padNat 2 (tod % 60) ++ "Z"

/-- Model of the Display implementation for Property (the fmt function
in src/upower.rs). The value none models a fatal failure: the expect
call on an unrepresentable UpdateTime timestamp, and the panicking
catch-all arm on an out-of-range State code. All other arms are
total. -/
def render : Property → Option String
  | .UpdateTime t =>
    if timestampValid (u64AsI64 t) then some (rfc3339Utc (u64AsI64 t)) else none
  | .State n =>
    match n with
    | 0 => some "Unknown"
    | 1 => some "Charging"
    | 2 => some "Discharging"
    | 3 => some "Empty"
    | 4 => some "FullyCharged"
    | 5 => some "PendingCharge"
    | 6 => some "PendingDischarge"
    | _ => none
  | .TimeToEmpty t => some (secs_to_hhmmss t)
  | .TimeToFull t => some (secs_to_hhmmss t)
  | .Online b => some (toString b)
  | .IsPresent b => some (toString b)
  | .Percentage p => some (toString p)

/-- Split a character list on a separator character, accumulating the
current segment in reverse. Models the Rust str::split iterator for a
single-character separator: an empty input yields one empty segment and
a trailing separator yields a trailing empty segment. -/
def splitOnCharList (sep : Char) : List Char → List Char → List (List Char)
  | [], acc => [acc.reverse]
  | c :: cs, acc =>
    if c == sep then acc.reverse :: splitOnCharList sep cs []
    else splitOnCharList sep cs (c :: acc)

/-- Split a string on commas, as the Rust expression targets.split(",")
does in DeviceConfig::new. -/
def splitComma (s : String) : List String :=
  (splitOnCharList ',' s.data []).map (fun cs => String.mk cs)

/-- Model of the DeviceConfig struct from src/upower.rs: a device path
and the list of properties monitored for it. -/
structure DeviceConfig where
  path : String
  targets : List String

/-- Model of DeviceConfig::new from src/upower.rs: reject an empty
target string, split on commas, validate every token against the
variant names, store the path verbatim. -/
def DeviceConfig.new (path targets : String) : Except String DeviceConfig :=
  if targets = "" then .error "Must specify one or more target properties to monitor."
  else do
    let targs ← (splitComma targets).mapM (fun s =>
      if s ∈ VARIANTS then (Except.ok s : Except String String)
      else .error ("Unexpected target property: " ++ s))
    .ok { path := path, targets := targs }

/-- Chunk a flat argument list into consecutive pairs, as the Rust
iterator chunks(2) yields them for a list of even length (a trailing
odd element is dropped, but from_varargs rejects odd lengths before
this point). -/
def pairChunks : List String → List (String × String)
  | p :: t :: rest => (p, t) :: pairChunks rest
  | _ => []

/-- Model of DeviceConfig::from_varargs from src/upower.rs: reject an
odd number of arguments, then create one config per consecutive pair. -/
def DeviceConfig.from_varargs (args : List String) : Except String (List DeviceConfig) :=
  if args.length % 2 ≠ 0 then
    .error ("Invalid aggregate number of path arguments: " ++ toString args.length)
  else (pairChunks args).mapM (fun pt => DeviceConfig.new pt.1 pt.2)

/-- Specification-side transcription of create_many: delegate each
consecutive pair of the flat sequence to single-config creation, in
order, short-circuiting on the first error. -/
def createPairs : List String → Except String (List DeviceConfig)
  | [] => .ok []
  | p :: t :: rest => do
    let c ← DeviceConfig.new p t
    let cs ← createPairs rest
    .ok (c :: cs)
  | [_] => .ok []

/-- Single-quote character (code 39), used in the wire form of a match
rule. -/
def sq : String := String.singleton (Char.ofNat 39)

/-- Model of the DBus object path check the zbus library performs when
the builder path method is called: a root path, or slash-separated
nonempty segments of letters, digits and underscores. -/
def objectPathValid (p : String) : Bool :=
  match p.data with
  | ['/'] => true
  | '/' :: rest =>
    (splitOnCharList '/' rest []).all (fun seg =>
      !seg.isEmpty && seg.all (fun c => c.isAlphanum || c == '_'))
  | _ => false

/-- Model of the zbus MatchRule value built by DeviceConfig::rule, with
the fields the builder sets. -/
structure MatchRule where
  msg_type : String
  interface : String
  member : String
  path : String

/-- Model of DeviceConfig::rule from src/upower.rs: build a match rule
for this path with signal type, the standard properties interface and
the PropertiesChanged member. The only failure mode is a path rejected
by the zbus object-path syntax. -/
def DeviceConfig.rule (cfg : DeviceConfig) : Except String MatchRule :=
  if objectPathValid cfg.path then
    .ok { msg_type := "signal", interface := "org.freedesktop.DBus.Properties",
          member := "PropertiesChanged", path := cfg.path }
  else .error "invalid object path"

/-- Canonical wire form of a match rule, fields serialized in the order
type, interface, member, path, as pinned by the rules test of the
repository. -/
def MatchRule.toWireString (r : MatchRule) : String :=
  "type=" ++ sq ++ r.msg_type ++ sq ++ ",interface=" ++ sq ++ r.interface ++ sq ++
    ",member=" ++ sq ++ r.member ++ sq ++ ",path=" ++ sq ++ r.path ++ sq

/-- Model of the LineWriter struct from src/output.rs, keeping the
formatting configuration; the output sink itself is modelled by the
string a write call appends to it. -/
structure LineWriter where
  separator : String
  delimiter : String
  timestamp : Bool

/-- Model of the write method of the Writer implementation for
LineWriter in src/output.rs: the returned string is the exact sequence
of bytes the call appends to the sink. The entries of the changes map
are passed as a list in iteration order, and the wall clock is modelled
by the now argument, which carries the already-formatted current
timestamp. The value none models a fatal formatting failure inside a
property Display call. -/
def LineWriter.write (w : LineWriter) (now : String) (device_path : String)
    (changes : List (String × Property)) : Option String :=
  (changes.mapM (fun kv => (render kv.2).map (fun v => kv.1 ++ w.separator ++ v))).map
    (fun strs =>
      let prop_string := String.intercalate w.delimiter strs
      let t_str := if w.timestamp then now ++ " " else ""
      t_str ++ device_path ++ " " ++ prop_string ++ "\n")

/-- Lookup in an association list by key, modelling HashMap::get on the
changed-properties mapping of a notification (keys are unique in a
HashMap, and only the first binding is ever consulted here). -/
def lookupA : List (String × Value) → String → Option Value
  | [], _ => none
  | (k0, v) :: rest, k => if k0 = k then some v else lookupA rest k

/-- Insert with last-write-wins semantics into an association list,
modelling HashMap::insert on the collected changes. -/
def insertA (m : List (String × Property)) (k : String) (p : Property) :
    List (String × Property) :=
  match m with
  | [] => [(k, p)]
  | (k0, p0) :: rest => if k0 = k then (k, p) :: rest else (k0, p0) :: insertA rest k p

/-- One iteration of the loop in DeviceConfig::collect_changes: look the
target name up in the notification mapping, parse it, and keep the
result only when parsing succeeds. -/
def collectStep (properties : List (String × Value)) (changes : List (String × Property))
    (k : String) : List (String × Property) :=
  match lookupA properties k with
  | some v =>
    match Property.from_key_value k v with
    | .ok p => insertA changes k p
    | .error _ => changes
  | none => changes

/-- Model of DeviceConfig::collect_changes from src/upower.rs: collect
the relevant changes into a map, iterating over the configured
targets. -/
def DeviceConfig.collect_changes (cfg : DeviceConfig)
    (properties : List (String × Value)) : List (String × Property) :=
  cfg.targets.foldl (collectStep properties) []

/-- Phase of one in-flight write call: before taking the mutex, holding
it with the given chunks still to append, or finished. -/
inductive Phase
  | start
  | writing (rest : List String)
  | done

/-- Global state of two concurrent write calls sharing one sink: the
mutex owner, the chunks appended to the sink so far (tagged with the
call that appended them), and the phase of each call. -/
structure WriterState where
  lock : Option Bool
  buf : List (Bool × String)
  ph : Bool → Phase

/-- Interleaving semantics of two concurrent write calls on one shared
LineWriter, following the body of the write method in src/output.rs: a
call first acquires the mutex when free, then appends the bytes of its
line (in one or more chunks) while holding it, then releases it. Only
the mutex holder can append to the sink. -/
inductive WStep (line : Bool → List String) : WriterState → WriterState → Prop
  | acquire (s : WriterState) (i : Bool) :
      s.lock = none → s.ph i = .start →
      WStep line s ⟨some i, s.buf, fun j => if j = i then .writing (line i) else s.ph j⟩
  | emit (s : WriterState) (i : Bool) (c : String) (rest : List String) :
      s.lock = some i → s.ph i = .writing (c :: rest) →
      WStep line s ⟨some i, s.buf ++ [(i, c)], fun j => if j = i then .writing rest else s.ph j⟩
  | release (s : WriterState) (i : Bool) :
      s.lock = some i → s.ph i = .writing [] →
      WStep line s ⟨none, s.buf, fun j => if j = i then .done else s.ph j⟩

/-- Initial state: mutex free, sink empty, both calls pending. -/
def initState : WriterState := ⟨none, [], fun _ => .start⟩

/-- Reachability from the initial state under the interleaving
semantics. -/
def Reach (line : Bool → List String) (s : WriterState) : Prop :=
  Relation.ReflTransGen (WStep line) initState s

/-- Chunks the given call has appended to the sink so far, in order. -/
def bufOf (s : WriterState) (i : Bool) : List String :=
  (s.buf.filter (fun e => e.1 == i)).map Prod.snd

/-- A tag sequence is split when it is a block of one tag followed by a
block of the other: the two calls did not interleave. -/
def TagsSplit (l : List Bool) (i : Bool) : Prop :=
  ∃ a b, l = List.replicate a i ++ List.replicate b (!i)

/-- Inductive invariant of the interleaving semantics: a pending call
has appended nothing, a call holding the mutex has appended exactly a
prefix of its line, a finished call has appended its whole line, the
tag sequence of the sink is split into two blocks, and the mutex holder
owns the trailing block. -/
structure WInv (line : Bool → List String) (s : WriterState) : Prop where
  start_empty : ∀ i, s.ph i = .start → bufOf s i = []
  writing_lock : ∀ i rest, s.ph i = .writing rest →
    s.lock = some i ∧ ∃ pre, line i = pre ++ rest ∧ bufOf s i = pre
  done_full : ∀ i, s.ph i = .done → bufOf s i = line i
  tags_split : ∃ i, TagsSplit (s.buf.map Prod.fst) i
  lock_suffix : ∀ i, s.lock = some i → TagsSplit (s.buf.map Prod.fst) (!i)

/-- First concrete output line used in the interleaving witness. -/
def lineA : String := "/a State=Discharging\n"

/-- Second concrete output line used in the interleaving witness. -/
def lineB : String := "/b Online=true\n"

/-- Chunking of the two concrete witness lines, one chunk each. -/
def lineW : Bool → List String := fun i => [cond i lineB lineA]

/-- The two concrete full output lines of the interleaving witness. -/
def outW : Bool → String := fun i => cond i lineB lineA

lemma stage_eq (s d : Int) (hs : 0 ≤ s) (hd : 0 < d) :
    (if 0 < s.tdiv d then s.tmod (s.tdiv d * d) else s) = s % d := by
  rw [Int.tdiv_eq_ediv hs (le_of_lt hd)]
  have h0 : 0 ≤ s % d := Int.emod_nonneg s (by omega)
  have h1 : s % d < d := Int.emod_lt_of_pos s hd
  have h2 : d * (s / d) + s % d = s := Int.ediv_add_emod s d
  by_cases hq : 0 < s / d
  · simp only [if_pos hq]
    rw [Int.tmod_eq_emod hs (by positivity)]
    have key : s % d + s / d * d * 1 = s := by
      have hc : s / d * d * 1 = d * (s / d) := by ring
      rw [hc]
      linarith [h2]
    have hdle : d ≤ s / d * d := by
      have h3 : (1 : Int) ≤ s / d := by omega
      calc d = 1 * d := by ring
        _ ≤ s / d * d := by
          exact mul_le_mul_of_nonneg_right h3 (le_of_lt hd)
    calc s % (s / d * d) = (s % d + s / d * d * 1) % (s / d * d) := by rw [key]
      _ = s % d % (s / d * d) := Int.add_mul_emod_self_left ..
      _ = s % d := Int.emod_eq_of_lt h0 (lt_of_lt_of_le h1 hdle)
  · simp only [if_neg hq]
    have hz : s / d = 0 := by
      have := Int.ediv_nonneg hs (le_of_lt hd)
      omega
    rw [hz] at h2
    omega

lemma secs_to_hhmmss_eq_spec (s : Int) : secs_to_hhmmss s = hhmmssSpec s := by
  unfold secs_to_hhmmss hhmmssSpec
  by_cases hs : s ≤ 0
  · simp [hs]
  · simp only [if_neg hs]
    have hs0 : 0 ≤ s := by omega
    have ht : s.tdiv 3600 = s / 3600 := Int.tdiv_eq_ediv hs0 (by norm_num)
    have e1 : (if 0 < s.tdiv 3600 then s.tmod (s.tdiv 3600 * 3600) else s) = s % 3600 :=
      stage_eq s 3600 hs0 (by norm_num)
    have hm0 : 0 ≤ s % 3600 := Int.emod_nonneg s (by norm_num)
    have ht2 : (s % 3600).tdiv 60 = (s % 3600) / 60 := Int.tdiv_eq_ediv hm0 (by norm_num)
    have e2 : (if 0 < (s % 3600).tdiv 60 then (s % 3600).tmod ((s % 3600).tdiv 60 * 60)
        else s % 3600) = s % 3600 % 60 :=
      stage_eq (s % 3600) 60 hm0 (by norm_num)
    have e3 : s % 3600 % 60 = s % 60 := Int.emod_emod_of_dvd s (by norm_num)
    rw [ht] at e1
    rw [ht] at *
    rw [e1, ht2] at *
    rw [e2, e3]

lemma fkv_unknown (k : String) (v : Value) (h : k ∉ VARIANTS) :
    Property.from_key_value k v = .error () := by
  simp [VARIANTS] at h
  unfold Property.from_key_value
  split <;> simp_all

lemma fkv_mismatch (k : String) (v : Value) (hk : k ∈ VARIANTS)
    (hv : typeMatches k v = false) : Property.from_key_value k v = .error () := by
  simp [VARIANTS] at hk
  rcases hk with h | h | h | h | h | h | h <;> subst h <;>
    cases v <;> simp_all [typeMatches, Property.from_key_value]

lemma fkv_ok_name {k : String} {v : Value} {p : Property}
    (h : Property.from_key_value k v = .ok p) : variantName p = k := by
  unfold Property.from_key_value at h
  split at h <;> first
    | (injection h with h; subst h; rfl)
    | (injection h)

lemma checkTargets_ok (l : List String) (h : ∀ t ∈ l, t ∈ VARIANTS) :
    l.mapM (fun s =>
      if s ∈ VARIANTS then (Except.ok s : Except String String)
      else .error ("Unexpected target property: " ++ s)) = .ok l := by
  induction l with
  | nil => rfl
  | cons a l ih =>
    have ha : a ∈ VARIANTS := h a (by simp)
    rw [List.mapM_cons]
    simp only [if_pos ha, ih (fun t ht => h t (by simp [ht]))]
    rfl

lemma checkTargets_err (l : List String) (b : String)
    (h : l.find? (fun t => decide (t ∉ VARIANTS)) = some b) :
    l.mapM (fun s =>
      if s ∈ VARIANTS then (Except.ok s : Except String String)
      else .error ("Unexpected target property: " ++ s)) =
      .error ("Unexpected target property: " ++ b) := by
  induction l with
  | nil => simp at h
  | cons a l ih =>
    by_cases ha : a ∈ VARIANTS
    · have h2 : l.find? (fun t => decide (t ∉ VARIANTS)) = some b := by
        simpa [List.find?_cons, ha] using h
      rw [List.mapM_cons]
      simp only [if_pos ha, ih h2]
      rfl
    · have hab : a = b := by simpa [List.find?_cons, ha] using h
      subst hab
      rw [List.mapM_cons]
      simp only [if_neg ha]
      rfl

lemma mapM_pairChunks_eq : ∀ args : List String,
    (pairChunks args).mapM (fun pt => DeviceConfig.new pt.1 pt.2) = createPairs args
  | [] => rfl
  | [x] => rfl
  | p :: t :: rest => by
    have ih := mapM_pairChunks_eq rest
    rw [show pairChunks (p :: t :: rest) = (p, t) :: pairChunks rest from rfl,
      List.mapM_cons, ih]
    cases hc : DeviceConfig.new p t with
    | error e => simp only [createPairs, hc]; rfl
    | ok c =>
      cases hr : createPairs rest with
      | error e => simp only [createPairs, hc, hr]; rfl
      | ok cs => simp only [createPairs, hc, hr]; rfl

lemma mem_insertA {m : List (String × Property)} {k k1 : String} {p p1 : Property}
    (h : (k1, p1) ∈ insertA m k p) : (k1 = k ∧ p1 = p) ∨ (k1, p1) ∈ m := by
  induction m with
  | nil =>
    simp [insertA] at h
    exact Or.inl h
  | cons hd tl ih =>
    obtain ⟨k0, p0⟩ := hd
    by_cases hk : k0 = k
    · simp [insertA, hk] at h
      rcases h with ⟨h1, h2⟩ | h
      · exact Or.inl ⟨h1, h2⟩
      · exact Or.inr (by simp [h])
    · simp [insertA, hk] at h
      rcases h with ⟨h1, h2⟩ | h
      · exact Or.inr (by simp [h1, h2])
      · rcases ih h with h | h
        · exact Or.inl h
        · exact Or.inr (by simp [h])

lemma keys_insertA {m : List (String × Property)} {k x : String} {p : Property}
    (h : x ∈ (insertA m k p).map Prod.fst) : x = k ∨ x ∈ m.map Prod.fst := by
  simp only [List.mem_map] at h
  obtain ⟨⟨k1, p1⟩, hmem, hx⟩ := h
  rcases mem_insertA hmem with ⟨h1, _⟩ | h1
  · exact Or.inl (by simp_all)
  · exact Or.inr (by exact List.mem_map.mpr ⟨(k1, p1), h1, hx⟩)

lemma nodup_insertA {m : List (String × Property)} {k : String} {p : Property}
    (h : (m.map Prod.fst).Nodup) : ((insertA m k p).map Prod.fst).Nodup := by
  induction m with
  | nil => simp [insertA]
  | cons hd tl ih =>
    obtain ⟨k0, p0⟩ := hd
    simp only [List.map_cons, List.nodup_cons] at h
    by_cases hk : k0 = k
    · simp only [insertA, if_pos hk, List.map_cons, List.nodup_cons]
      exact ⟨hk ▸ h.1, h.2⟩
    · simp only [insertA, if_neg hk, List.map_cons, List.nodup_cons]
      refine ⟨fun hc => ?_, ih h.2⟩
      rcases keys_insertA hc with h1 | h1
      · exact hk h1
      · exact h.1 h1

lemma foldl_collect_mem (properties : List (String × Value)) :
    ∀ (targets : List String) (m : List (String × Property)) (k : String) (p : Property),
      (k, p) ∈ targets.foldl (collectStep properties) m →
      (k, p) ∈ m ∨
        (k ∈ targets ∧ ∃ v, lookupA properties k = some v ∧
          Property.from_key_value k v = .ok p) := by
  intro targets
  induction targets with
  | nil => intro m k p h; exact Or.inl h
  | cons t ts ih =>
    intro m k p h
    rw [List.foldl_cons] at h
    rcases ih (collectStep properties m t) k p h with hm | ⟨ht, hv⟩
    · unfold collectStep at hm
      cases hl : lookupA properties t with
      | none =>
        simp only [hl] at hm
        exact Or.inl hm
      | some v =>
        simp only [hl] at hm
        cases hok : Property.from_key_value t v with
        | error e =>
          simp only [hok] at hm
          exact Or.inl hm
        | ok q =>
          simp only [hok] at hm
          rcases mem_insertA hm with ⟨hk, hp⟩ | hm2
          · subst hk
            subst hp
            exact Or.inr ⟨by simp, v, hl, hok⟩
          · exact Or.inl hm2
    · exact Or.inr ⟨by simp [ht], hv⟩

lemma foldl_collect_nodup (properties : List (String × Value)) :
    ∀ (targets : List String) (m : List (String × Property)),
      (m.map Prod.fst).Nodup →
      ((targets.foldl (collectStep properties) m).map Prod.fst).Nodup := by
  intro targets
  induction targets with
  | nil => intro m h; exact h
  | cons t ts ih =>
    intro m h
    rw [List.foldl_cons]
    refine ih _ ?_
    unfold collectStep
    split
    · split
      · exact nodup_insertA h
      · exact h
    · exact h

lemma eq_replicate_of_ne {l : List Bool} {i : Bool} (h : ∀ x ∈ l, x ≠ i) :
    l = List.replicate l.length (!i) := by
  induction l with
  | nil => rfl
  | cons a l ih =>
    have h1 : a ≠ i := h a (by simp)
    have ha : a = !i := by revert h1; cases a <;> cases i <;> decide
    have hl : l = List.replicate l.length (!i) := ih (fun x hx => h x (by simp [hx]))
    calc a :: l = (!i) :: List.replicate l.length (!i) := by rw [← hl, ← ha]
      _ = List.replicate (a :: l).length (!i) := by
        rw [List.length_cons, List.replicate_succ]

lemma tagsSplit_of_no_mem {l : List Bool} {i : Bool} (h : ∀ x ∈ l, x ≠ i) :
    TagsSplit l (!i) := by
  refine ⟨l.length, 0, ?_⟩
  rw [List.replicate_zero, List.append_nil]
  exact eq_replicate_of_ne h

lemma tagsSplit_snoc {l : List Bool} {i : Bool} (h : TagsSplit l (!i)) :
    TagsSplit (l ++ [i]) (!i) := by
  obtain ⟨a, b, hl⟩ := h
  refine ⟨a, b + 1, ?_⟩
  rw [hl, Bool.not_not, List.replicate_succ', List.append_assoc]

lemma bufOf_snoc_same (lk : Option Bool) (buf : List (Bool × String)) (ph : Bool → Phase)
    (i : Bool) (c : String) (s : WriterState) (hbuf : s.buf = buf) :
    bufOf ⟨lk, buf ++ [(i, c)], ph⟩ i = bufOf s i ++ [c] := by
  simp [bufOf, hbuf, List.filter_append]

lemma bufOf_snoc_other (lk : Option Bool) (buf : List (Bool × String)) (ph : Bool → Phase)
    (i j : Bool) (c : String) (s : WriterState) (hbuf : s.buf = buf) (hij : j ≠ i) :
    bufOf ⟨lk, buf ++ [(i, c)], ph⟩ j = bufOf s j := by
  have : (i == j) = false := by
    cases i <;> cases j <;> simp_all
  simp [bufOf, hbuf, List.filter_append, this]

lemma no_mem_tags_of_bufOf_nil {s : WriterState} {i : Bool} (h : bufOf s i = []) :
    ∀ x ∈ s.buf.map Prod.fst, x ≠ i := by
  intro x hx hxi
  obtain ⟨e, he, hfst⟩ := List.mem_map.mp hx
  have hmem : e ∈ s.buf.filter (fun e => e.1 == i) :=
    List.mem_filter.mpr ⟨he, by simp [hfst, hxi]⟩
  have h2 : (s.buf.filter (fun e => e.1 == i)).map Prod.snd = [] := h
  have hnil : s.buf.filter (fun e => e.1 == i) = [] := List.map_eq_nil_iff.mp h2
  rw [hnil] at hmem
  simp at hmem

lemma winv_init (line : Bool → List String) : WInv line initState := by
  refine ⟨?_, ?_, ?_, ?_, ?_⟩
  · intro i _
    rfl
  · intro i rest h
    exact Phase.noConfusion h
  · intro i h
    exact Phase.noConfusion h
  · exact ⟨true, 0, 0, rfl⟩
  · intro i h
    exact Option.noConfusion h

lemma winv_step {line : Bool → List String} {s s2 : WriterState}
    (inv : WInv line s) (hstep : WStep line s s2) : WInv line s2 := by
  cases hstep with
  | acquire i hlock hph =>
    refine ⟨?_, ?_, ?_, ?_, ?_⟩
    · intro j hj
      by_cases hji : j = i
      · subst hji
        simp at hj
      · have hsj : s.ph j = .start := by simpa [hji] using hj
        exact inv.start_empty j hsj
    · intro j rest hj
      by_cases hji : j = i
      · subst hji
        have hr : line j = rest := by simpa using hj
        subst hr
        exact ⟨rfl, [], by simp, inv.start_empty j hph⟩
      · exfalso
        have hsj : s.ph j = .writing rest := by simpa [hji] using hj
        have h2 := (inv.writing_lock j rest hsj).1
        rw [hlock] at h2
        exact Option.noConfusion h2
    · intro j hj
      by_cases hji : j = i
      · subst hji
        simp at hj
      · have hsj : s.ph j = .done := by simpa [hji] using hj
        exact inv.done_full j hsj
    · exact inv.tags_split
    · intro j hj
      have hji : j = i := by
        injection hj with h2
        exact h2.symm
      subst hji
      exact tagsSplit_of_no_mem (no_mem_tags_of_bufOf_nil (inv.start_empty j hph))
  | emit i c rest hlock hph =>
    have hbo_same :
        bufOf ⟨some i, s.buf ++ [(i, c)], fun j => if j = i then Phase.writing rest else s.ph j⟩ i =
          bufOf s i ++ [c] :=
      bufOf_snoc_same _ _ _ _ _ s rfl
    have hbo_other : ∀ j, j ≠ i →
        bufOf ⟨some i, s.buf ++ [(i, c)], fun j => if j = i then Phase.writing rest else s.ph j⟩ j =
          bufOf s j :=
      fun j hj => bufOf_snoc_other _ _ _ _ _ _ s rfl hj
    obtain ⟨hlock2, pre, hline, hbuf⟩ := inv.writing_lock i (c :: rest) hph
    refine ⟨?_, ?_, ?_, ?_, ?_⟩
    · intro j hj
      by_cases hji : j = i
      · subst hji
        simp at hj
      · have hsj : s.ph j = .start := by simpa [hji] using hj
        rw [hbo_other j hji]
        exact inv.start_empty j hsj
    · intro j rest2 hj
      by_cases hji : j = i
      · subst hji
        have hr : rest = rest2 := by simpa using hj
        subst hr
        refine ⟨rfl, pre ++ [c], ?_, ?_⟩
        · rw [hline]
          simp
        · rw [hbo_same, hbuf]
      · exfalso
        have hsj : s.ph j = .writing rest2 := by simpa [hji] using hj
        have h2 := (inv.writing_lock j rest2 hsj).1
        rw [hlock] at h2
        injection h2 with h2
        exact hji h2.symm
    · intro j hj
      by_cases hji : j = i
      · subst hji
        simp at hj
      · have hsj : s.ph j = .done := by simpa [hji] using hj
        rw [hbo_other j hji]
        exact inv.done_full j hsj
    · refine ⟨!i, ?_⟩
      show TagsSplit ((s.buf ++ [(i, c)]).map Prod.fst) (!i)
      rw [List.map_append]
      exact tagsSplit_snoc (inv.lock_suffix i hlock)
    · intro j hj
      have hji : j = i := by
        injection hj with h2
        exact h2.symm
      subst hji
      show TagsSplit ((s.buf ++ [(j, c)]).map Prod.fst) (!j)
      rw [List.map_append]
      exact tagsSplit_snoc (inv.lock_suffix j hlock)
  | release i hlock hph =>
    obtain ⟨_, pre, hline, hbuf⟩ := inv.writing_lock i [] hph
    have hpre : pre = line i := by
      rw [hline, List.append_nil]
    refine ⟨?_, ?_, ?_, ?_, ?_⟩
    · intro j hj
      by_cases hji : j = i
      · subst hji
        simp at hj
      · have hsj : s.ph j = .start := by simpa [hji] using hj
        exact inv.start_empty j hsj
    · intro j rest hj
      by_cases hji : j = i
      · subst hji
        simp at hj
      · exfalso
        have hsj : s.ph j = .writing rest := by simpa [hji] using hj
        have h2 := (inv.writing_lock j rest hsj).1
        rw [hlock] at h2
        injection h2 with h2
        exact hji h2.symm
    · intro j hj
      by_cases hji : j = i
      · subst hji
        show bufOf s j = line j
        rw [hbuf, hpre]
      · have hsj : s.ph j = .done := by simpa [hji] using hj
        exact inv.done_full j hsj
    · exact inv.tags_split
    · intro j hj
      exact Option.noConfusion hj

lemma reach_winv {line : Bool → List String} {s : WriterState}
    (h : Reach line s) : WInv line s := by
  induction h with
  | refl => exact winv_init line
  | tail h1 hstep ih => exact winv_step ih hstep

lemma string_join_append (l1 l2 : List String) :
    String.join (l1 ++ l2) = String.join l1 ++ String.join l2 := by
  rw [String.join_eq, String.join_eq, String.join_eq]
  rw [show ∀ a b : List Char, String.mk a ++ String.mk b = String.mk (a ++ b) from
    fun a b => rfl]
  simp

lemma buf_split_of_tagsSplit {s : WriterState} {j : Bool}
    (h : TagsSplit (s.buf.map Prod.fst) j) :
    s.buf.map Prod.snd = bufOf s j ++ bufOf s (!j) := by
  obtain ⟨a, b, htags⟩ := h
  obtain ⟨B1, B2, hbuf, h1, h2⟩ := List.map_eq_append_iff.mp htags
  have hB1 : ∀ e ∈ B1, e.1 = j := by
    intro e he
    exact List.eq_of_mem_replicate (h1 ▸ List.mem_map_of_mem Prod.fst he)
  have hB2 : ∀ e ∈ B2, e.1 = !j := by
    intro e he
    exact List.eq_of_mem_replicate (h2 ▸ List.mem_map_of_mem Prod.fst he)
  have hf1 : B1.filter (fun e => e.1 == j) = B1 :=
    List.filter_eq_self.mpr (fun e he => by simp [hB1 e he])
  have hf2 : B2.filter (fun e => e.1 == j) = [] :=
    List.filter_eq_nil_iff.mpr (fun e he => by
      rw [hB2 e he]
      cases j <;> simp)
  have hg1 : B1.filter (fun e => e.1 == !j) = [] :=
    List.filter_eq_nil_iff.mpr (fun e he => by
      rw [hB1 e he]
      cases j <;> simp)
  have hg2 : B2.filter (fun e => e.1 == !j) = B2 :=
    List.filter_eq_self.mpr (fun e he => by simp [hB2 e he])
  have hj1 : bufOf s j = B1.map Prod.snd := by
    show (s.buf.filter (fun e => e.1 == j)).map Prod.snd = B1.map Prod.snd
    rw [hbuf, List.filter_append, hf1, hf2, List.append_nil]
  have hj2 : bufOf s (!j) = B2.map Prod.snd := by
    show (s.buf.filter (fun e => e.1 == !j)).map Prod.snd = B2.map Prod.snd
    rw [hbuf, List.filter_append, hg1, hg2, List.nil_append]
  rw [hbuf, List.map_append, hj1, hj2]

/-- Claim C1, counterexample: rendering the UpdateTime payload 2 ^ 63,
which lies in the unsigned 64-bit range and is not a State value, fails
fatally (the chrono timestamp conversion has no representable result),
contradicting the claim that render fails only on State codes above
six. -/
theorem c1_claim_counterexample :
    render (Property.UpdateTime (2 ^ 63)) = none ∧ (2 : Nat) ^ 63 < 2 ^ 64 ∧
      (∀ n, Property.UpdateTime (2 ^ 63) ≠ Property.State n) :=
  ⟨by decide, by norm_num, fun n => by simp⟩

/-- Claim C1 (amended): render fails fatally exactly on a State code
above six or on an UpdateTime payload whose reinterpretation as a
signed 64-bit timestamp falls outside the datetime range chrono can
represent; every other input yields a string. -/
theorem c1_render_fatal_iff (p : Property) :
    render p = none ↔
      ((∃ n, p = .State n ∧ 6 < n) ∨
       (∃ t, p = .UpdateTime t ∧ timestampValid (u64AsI64 t) = false)) := by
  cases p with
  | UpdateTime t =>
    by_cases h : timestampValid (u64AsI64 t) <;> simp [render, h]
  | State n =>
    match n with
    | 0 => simp [render]
    | 1 => simp [render]
    | 2 => simp [render]
    | 3 => simp [render]
    | 4 => simp [render]
    | 5 => simp [render]
    | 6 => simp [render]
    | n + 7 => simp [render]
  | Online b => simp [render]
  | IsPresent b => simp [render]
  | TimeToEmpty t => simp [render]
  | TimeToFull t => simp [render]
  | Percentage q => simp [render]

/-- Claim C2: rendering TimeToEmpty or TimeToFull follows the stated
rule for every signed integer (hours t / 3600, minutes
(t mod 3600) / 60, seconds t mod 60, zero-padded to two digits, joined
by colons, with non-positive inputs rendered as 00:00:00); in
particular 54321 renders as 15:05:21 and -5 renders as 00:00:00. -/
theorem c2_time_to_hhmmss :
    (∀ t : Int, render (Property.TimeToEmpty t) = some (hhmmssSpec t) ∧
      render (Property.TimeToFull t) = some (hhmmssSpec t)) ∧
    secs_to_hhmmss 54321 = "15:05:21" ∧ secs_to_hhmmss (-5) = "00:00:00" := by
  refine ⟨fun t => ⟨?_, ?_⟩, by decide, by decide⟩ <;>
    simp [render, secs_to_hhmmss_eq_spec]

/-- Claim C3, counterexample: a recognized name with a wrong-typed
value and an unrecognized name produce the very same error value (the
single unit error), so the two failure kinds are not distinguishable by
the caller. -/
theorem c3_claim_counterexample :
    Property.from_key_value "UpdateTime" (Value.Bool true) =
      Property.from_key_value "SomeBadKey" (Value.U32 2) ∧
    Property.from_key_value "UpdateTime" (Value.Bool true) = .error () :=
  ⟨rfl, rfl⟩

/-- Claim C3 (amended): parsing fails on a recognized name paired with
a wrong-typed value and on an unrecognized name, but both failures
return the same unit error, carrying no information about which case
occurred. -/
theorem c3_parse_errors_indistinct (k : String) (v : Value) :
    (k ∉ VARIANTS → Property.from_key_value k v = .error ()) ∧
    (k ∈ VARIANTS → typeMatches k v = false → Property.from_key_value k v = .error ()) :=
  ⟨fun h => fkv_unknown k v h, fun hk hv => fkv_mismatch k v hk hv⟩

/-- Witness for C3 at concrete inputs: an unknown key and a wrong-typed
value for a known key. -/
theorem c3_parse_errors_indistinct_witness :
    Property.from_key_value "SomeBadKey" (Value.U32 2) = .error () ∧
    Property.from_key_value "UpdateTime" (Value.Bool true) = .error () :=
  ⟨(c3_parse_errors_indistinct "SomeBadKey" (Value.U32 2)).1 (by decide),
   (c3_parse_errors_indistinct "UpdateTime" (Value.Bool true)).2 (by decide) rfl⟩

/-- Claim C4, counterexample: a target property present in the
notification with a wrong-typed value produces exactly the same result
as a notification not containing the property at all, namely an empty
change record; nothing is surfaced as an error (the collection step
cannot fail at all). -/
theorem c4_claim_counterexample :
    DeviceConfig.collect_changes ⟨"/d", ["UpdateTime"]⟩ [("UpdateTime", Value.Bool true)] =
      DeviceConfig.collect_changes ⟨"/d", ["UpdateTime"]⟩ [] ∧
    DeviceConfig.collect_changes ⟨"/d", ["UpdateTime"]⟩ [("UpdateTime", Value.Bool true)] = [] :=
  ⟨rfl, rfl⟩

/-- Claim C4 (amended): the change-collection step silently skips a
target whose value has the wrong runtime type exactly as it skips a
target absent from the notification: when every target is absent or
wrong-typed, the collected record is empty and no error is reported. -/
theorem c4_mismatch_silently_dropped (cfg : DeviceConfig)
    (properties : List (String × Value))
    (h : ∀ k, k ∈ cfg.targets → ∀ v, lookupA properties k = some v →
      Property.from_key_value k v = .error ()) :
    cfg.collect_changes properties = [] := by
  unfold DeviceConfig.collect_changes
  have main : ∀ targets : List String,
      (∀ k, k ∈ targets → ∀ v, lookupA properties k = some v →
        Property.from_key_value k v = .error ()) →
      targets.foldl (collectStep properties) [] = [] := by
    intro targets
    induction targets with
    | nil => intro _; rfl
    | cons t ts ih =>
      intro hall
      rw [List.foldl_cons]
      have hstep : collectStep properties [] t = [] := by
        unfold collectStep
        split
        · next v hl =>
            rw [hall t (by simp) v hl]
        · rfl
      rw [hstep]
      exact ih (fun k hk v hv => hall k (by simp [hk]) v hv)
  exact main cfg.targets h

/-- Witness for C4 at a concrete input: one target, present with a
wrong-typed value. -/
theorem c4_mismatch_silently_dropped_witness :
    DeviceConfig.collect_changes ⟨"/d", ["UpdateTime"]⟩
      [("UpdateTime", Value.Bool true)] = [] := by
  apply c4_mismatch_silently_dropped
  intro k hk v hv
  simp at hk
  subst hk
  simp [lookupA] at hv
  subst hv
  rfl

/-- Claim C5: with timestamps disabled, a write call appends exactly
one newline-terminated line made of the device path, a space, and the
name-separator-value pairs joined by the delimiter; in particular the
single-entry record for TimeToFull 54321 yields exactly the stated
line. -/
theorem c5_line_writer_output (sep delim now device_path : String)
    (changes : List (String × Property)) (strs : List String)
    (h : changes.mapM (fun kv => (render kv.2).map (fun v => kv.1 ++ sep ++ v)) = some strs) :
    (LineWriter.mk sep delim false).write now device_path changes =
      some (device_path ++ " " ++ String.intercalate delim strs ++ "\n") ∧
    (LineWriter.mk "=" " " false).write "" "/org/freedesktop/UPower/devices/DisplayDevice"
        [("TimeToFull", Property.TimeToFull 54321)] =
      some "/org/freedesktop/UPower/devices/DisplayDevice TimeToFull=15:05:21\n" := by
  constructor
  · unfold LineWriter.write
    rw [h]
    rfl
  · rfl

/-- Witness for C5 at the concrete single-entry record of the claim. -/
theorem c5_line_writer_output_witness :
    (LineWriter.mk "=" " " false).write "" "/org/freedesktop/UPower/devices/DisplayDevice"
        [("TimeToFull", Property.TimeToFull 54321)] =
      some "/org/freedesktop/UPower/devices/DisplayDevice TimeToFull=15:05:21\n" :=
  (c5_line_writer_output "=" " " "" "/org/freedesktop/UPower/devices/DisplayDevice"
    [("TimeToFull", Property.TimeToFull 54321)] ["TimeToFull=15:05:21"] rfl).2

/-- Claim C6: creating a single device config fails with the
empty-target-list error when the target string is empty, fails with an
error naming the first offending token when some comma-split token is
not a property variant name, and otherwise succeeds with the path
stored verbatim and the targets stored as the split tokens. -/
theorem c6_device_config_new (path targets : String) :
    (targets = "" →
      DeviceConfig.new path targets =
        .error "Must specify one or more target properties to monitor.") ∧
    (targets ≠ "" → (∀ t ∈ splitComma targets, t ∈ VARIANTS) →
      DeviceConfig.new path targets = .ok ⟨path, splitComma targets⟩) ∧
    (targets ≠ "" → ∀ b, (splitComma targets).find? (fun t => decide (t ∉ VARIANTS)) = some b →
      DeviceConfig.new path targets = .error ("Unexpected target property: " ++ b)) := by
  refine ⟨fun h => by simp [DeviceConfig.new, h], fun h hall => ?_, fun h b hb => ?_⟩
  · unfold DeviceConfig.new
    rw [if_neg h, checkTargets_ok _ hall]
    rfl
  · unfold DeviceConfig.new
    rw [if_neg h, checkTargets_err _ b hb]
    rfl

/-- Witness for C6 at the concrete inputs exercised by the repository
tests: empty target string, a valid multi-target string, and a string
with an unrecognized token. -/
theorem c6_device_config_new_witness :
    DeviceConfig.new "/org/freedesktop/UPower/devices/DisplayDevice" "" =
      .error "Must specify one or more target properties to monitor." ∧
    DeviceConfig.new "/org/freedesktop/UPower/devices/DisplayDevice" "Online,State,Percentage" =
      .ok ⟨"/org/freedesktop/UPower/devices/DisplayDevice", ["Online", "State", "Percentage"]⟩ ∧
    DeviceConfig.new "/org/freedesktop/UPower/devices/DisplayDevice" "Online,BadTarget" =
      .error "Unexpected target property: BadTarget" := by
  refine ⟨(c6_device_config_new "/org/freedesktop/UPower/devices/DisplayDevice" "").1 rfl, ?_, ?_⟩
  · have h := (c6_device_config_new "/org/freedesktop/UPower/devices/DisplayDevice"
      "Online,State,Percentage").2.1 (by decide) (by decide)
    rw [h]
    rfl
  · exact (c6_device_config_new "/org/freedesktop/UPower/devices/DisplayDevice"
      "Online,BadTarget").2.2 (by decide) "BadTarget" (by decide)

/-- Claim C7: from_varargs fails with the odd-argument-count error on
every odd-length sequence regardless of content, and on even-length
sequences it behaves exactly as the specification transcription: one
config per consecutive pair, in order, delegating to single-config
creation and short-circuiting on the first error. -/
theorem c7_from_varargs (args : List String) :
    (args.length % 2 ≠ 0 → DeviceConfig.from_varargs args =
      .error ("Invalid aggregate number of path arguments: " ++ toString args.length)) ∧
    (args.length % 2 = 0 → DeviceConfig.from_varargs args = createPairs args) := by
  constructor
  · intro h
    simp [DeviceConfig.from_varargs, h]
  · intro h
    unfold DeviceConfig.from_varargs
    rw [if_neg (by simp [h]), mapM_pairChunks_eq]

/-- Witness for C7: a concrete odd-length sequence and a concrete
even-length sequence. -/
theorem c7_from_varargs_witness :
    DeviceConfig.from_varargs ["/org/freedesktop/UPower/devices/line_power_AC"] =
      .error "Invalid aggregate number of path arguments: 1" ∧
    DeviceConfig.from_varargs ["/org/freedesktop/UPower/devices/DisplayDevice", "Online"] =
      createPairs ["/org/freedesktop/UPower/devices/DisplayDevice", "Online"] :=
  ⟨(c7_from_varargs ["/org/freedesktop/UPower/devices/line_power_AC"]).1 (by decide),
   (c7_from_varargs ["/org/freedesktop/UPower/devices/DisplayDevice", "Online"]).2 (by decide)⟩

/-- Claim C8: every successfully built match rule serializes to the
canonical wire form listing type, interface, member and path in that
order with the fixed signal, properties-interface and
PropertiesChanged values; for the DisplayDevice path the wire string is
exactly the canonical one (sq is the single-quote character). -/
theorem c8_rule_wire_string :
    (∀ (cfg : DeviceConfig) (r : MatchRule), cfg.rule = .ok r →
      r.toWireString =
        "type=" ++ sq ++ "signal" ++ sq ++ ",interface=" ++ sq ++
          "org.freedesktop.DBus.Properties" ++ sq ++ ",member=" ++ sq ++
          "PropertiesChanged" ++ sq ++ ",path=" ++ sq ++ cfg.path ++ sq) ∧
    (∃ r : MatchRule,
      DeviceConfig.rule ⟨"/org/freedesktop/UPower/devices/DisplayDevice", ["TimeToFull"]⟩ =
        .ok r ∧
      r.toWireString =
        "type=" ++ sq ++ "signal" ++ sq ++ ",interface=" ++ sq ++
          "org.freedesktop.DBus.Properties" ++ sq ++ ",member=" ++ sq ++
          "PropertiesChanged" ++ sq ++ ",path=" ++ sq ++
          "/org/freedesktop/UPower/devices/DisplayDevice" ++ sq) := by
  constructor
  · intro cfg r h
    unfold DeviceConfig.rule at h
    split at h
    · injection h with h
      subst h
      rfl
    · exact absurd h (by simp)
  · refine ⟨⟨"signal", "org.freedesktop.DBus.Properties", "PropertiesChanged",
      "/org/freedesktop/UPower/devices/DisplayDevice"⟩, ?_, rfl⟩
    have hv : objectPathValid "/org/freedesktop/UPower/devices/DisplayDevice" = true := by
      decide
    unfold DeviceConfig.rule
    rw [if_pos hv]

/-- Witness for C8: the general wire-form statement applied to the
concrete DisplayDevice config. -/
theorem c8_rule_wire_string_witness :
    MatchRule.toWireString ⟨"signal", "org.freedesktop.DBus.Properties", "PropertiesChanged",
        "/org/freedesktop/UPower/devices/DisplayDevice"⟩ =
      "type=" ++ sq ++ "signal" ++ sq ++ ",interface=" ++ sq ++
        "org.freedesktop.DBus.Properties" ++ sq ++ ",member=" ++ sq ++
        "PropertiesChanged" ++ sq ++ ",path=" ++ sq ++
        "/org/freedesktop/UPower/devices/DisplayDevice" ++ sq :=
  c8_rule_wire_string.1 ⟨"/org/freedesktop/UPower/devices/DisplayDevice", ["TimeToFull"]⟩
    ⟨"signal", "org.freedesktop.DBus.Properties", "PropertiesChanged",
      "/org/freedesktop/UPower/devices/DisplayDevice"⟩
    (by
      have hv : objectPathValid "/org/freedesktop/UPower/devices/DisplayDevice" = true := by
        decide
      unfold DeviceConfig.rule
      rw [if_pos hv])

/-- Claim C9: for any two concurrent write calls on the same sink
(modelled by the interleaving semantics of WStep, whose emissions are
guarded by the mutex the source wraps around the sink), every reachable
state in which both calls have finished holds the two output lines one
after the other: the bytes of each line occupy a contiguous stretch of
the sink, with no byte-level interleaving. The out values are the exact
byte strings produced by LineWriter.write, and each line may have been
chunked arbitrarily. -/
theorem c9_write_no_interleaving (w : LineWriter) (now dp : Bool → String)
    (chs : Bool → List (String × Property)) (out : Bool → String)
    (line : Bool → List String)
    (hw : ∀ i, w.write (now i) (dp i) (chs i) = some (out i))
    (hchunk : ∀ i, String.join (line i) = out i)
    (s : WriterState) (hreach : Reach line s) (hdone : ∀ i, s.ph i = .done) :
    ∃ i, s.buf.map Prod.snd = line i ++ line (!i) ∧
      String.join (s.buf.map Prod.snd) = out i ++ out (!i) := by
  have inv := reach_winv hreach
  obtain ⟨j, hsplit⟩ := inv.tags_split
  have hbuf : s.buf.map Prod.snd = line j ++ line (!j) := by
    rw [buf_split_of_tagsSplit hsplit, inv.done_full j (hdone j),
      inv.done_full (!j) (hdone (!j))]
  refine ⟨j, hbuf, ?_⟩
  rw [hbuf, string_join_append, hchunk j, hchunk (!j)]

/-- Witness for C9: a concrete complete interleaved execution of two
write calls, one for a State change on one device and one for an
Online change on another, ending with both lines contiguous in the
sink. -/
theorem c9_write_no_interleaving_witness :
    ∃ s : WriterState, Reach lineW s ∧ (∀ i, s.ph i = .done) ∧
      ∃ i, s.buf.map Prod.snd = lineW i ++ lineW (!i) ∧
        String.join (s.buf.map Prod.snd) = outW i ++ outW (!i) := by
  have r0 : Reach lineW initState := Relation.ReflTransGen.refl
  have r1 := Relation.ReflTransGen.tail r0 (WStep.acquire initState false rfl rfl)
  have r2 := Relation.ReflTransGen.tail r1 (WStep.emit _ false lineA [] rfl rfl)
  have r3 := Relation.ReflTransGen.tail r2 (WStep.release _ false rfl rfl)
  have r4 := Relation.ReflTransGen.tail r3 (WStep.acquire _ true rfl rfl)
  have r5 := Relation.ReflTransGen.tail r4 (WStep.emit _ true lineB [] rfl rfl)
  have r6 := Relation.ReflTransGen.tail r5 (WStep.release _ true rfl rfl)
  refine ⟨_, r6, fun i => by cases i <;> rfl, ?_⟩
  exact c9_write_no_interleaving ⟨"=", " ", false⟩ (fun _ => "")
    (fun i => cond i "/b" "/a")
    (fun i => cond i [("Online", Property.Online true)] [("State", Property.State 2)])
    outW lineW (fun i => by cases i <;> rfl) (fun i => by cases i <;> rfl)
    _ r6 (fun i => by cases i <;> rfl)

/-- Claim C10: every entry of a collected change record has a key that
is among the configured targets and present in the notification
mapping, stores the Property value obtained by parsing that key with
its looked-up value (whose variant name equals the key), and the
record keys are free of duplicates even when the target list repeats a
name. -/
theorem c10_collect_changes_invariant (cfg : DeviceConfig)
    (properties : List (String × Value)) :
    (∀ k p, (k, p) ∈ cfg.collect_changes properties →
      k ∈ cfg.targets ∧
      (∃ v, lookupA properties k = some v ∧ Property.from_key_value k v = .ok p) ∧
      variantName p = k) ∧
    ((cfg.collect_changes properties).map Prod.fst).Nodup := by
  constructor
  · intro k p h
    rcases foldl_collect_mem properties cfg.targets [] k p h with hm | ⟨ht, v, hl, hok⟩
    · simp at hm
    · exact ⟨ht, ⟨v, hl, hok⟩, fkv_ok_name hok⟩
  · exact foldl_collect_nodup properties cfg.targets [] (by simp)

/-- Witness for C10 at a concrete config with a duplicated target. -/
theorem c10_collect_changes_invariant_witness :
    "State" ∈ (DeviceConfig.mk "/d" ["State", "State"]).targets ∧
    (∃ v, lookupA [("State", Value.U32 2)] "State" = some v ∧
      Property.from_key_value "State" v = .ok (Property.State 2)) ∧
    variantName (Property.State 2) = "State" ∧
    (((DeviceConfig.mk "/d" ["State", "State"]).collect_changes
        [("State", Value.U32 2)]).map Prod.fst).Nodup := by
  have h := c10_collect_changes_invariant (DeviceConfig.mk "/d" ["State", "State"])
    [("State", Value.U32 2)]
  have hmem : ("State", Property.State 2) ∈
      (DeviceConfig.mk "/d" ["State", "State"]).collect_changes [("State", Value.U32 2)] := by
    rw [show (DeviceConfig.mk "/d" ["State", "State"]).collect_changes
        [("State", Value.U32 2)] = [("State", Property.State 2)] from rfl]
    exact List.mem_singleton.mpr rfl
  obtain ⟨h1, h2, h3⟩ := h.1 "State" (Property.State 2) hmem
  exact ⟨h1, h2, h3, h.2⟩

end Upmon
